import Mathlib

/-!
Verification of the tutorLTI Adaptive Retrieval & Memory Pipeline.

Shallow embedding of `backend/services/rag_service.py`,
`backend/services/memory_service.py` and the message store of
`backend/models.py`.  Python strings are modelled as `List Char` where
slicing matters and as `String` where only equality matters; Python
floats are modelled as `ℚ`; the external collaborators (the SHA-256
digest combined with the IEEE float decode, the LLM adapter, the JSON
parser, ChromaDB's nearest-neighbour query) are modelled as explicit
function or `Except`-valued parameters.  Fallible Python code
(`raise` / `try: ... except:`) is modelled with `Option` / `Except`.
-/

set_option autoImplicit false

namespace TutorLTI

universe u

variable {α : Type u}

/-! Python primitives shared by several source functions. -/

/-- Python `str.strip()` on a character list: drop whitespace from both ends. -/
def pyStrip (s : List Char) : List Char :=
  ((s.dropWhile Char.isWhitespace).reverse.dropWhile Char.isWhitespace).reverse

/-- Python `list(dict.fromkeys(l))` keeps the first occurrence of every
element, in order.  `seen` is the set of keys already inserted. -/
def dedupFirstAux [DecidableEq α] (seen : List α) : List α → List α
  | [] => []
  | a :: l => if a ∈ seen then dedupFirstAux seen l else a :: dedupFirstAux (a :: seen) l

/-- Python `list(dict.fromkeys(l))`. -/
def dedupFirst [DecidableEq α] (l : List α) : List α :=
  dedupFirstAux [] l

/-- Round-half-to-even to the nearest integer, the tie-breaking rule of
Python `round`. -/
def roundHalfEven (q : ℚ) : ℤ :=
  let f := ⌊q⌋
  let r := q - (f : ℚ)
  if r < 1/2 then f
  else if 1/2 < r then f + 1
  else if f % 2 = 0 then f else f + 1

/-- Python `round(x, 1)`: round to one decimal digit, ties to even. -/
def pyRound1 (q : ℚ) : ℚ :=
  (roundHalfEven (10 * q) : ℚ) / 10

/-! Embedding of `backend/services/rag_service.py`. -/

/-- Constant `CHUNK_SIZE = 600` (rag_service.py line 19): characters per chunk. -/
def CHUNK_SIZE : Nat := 600

/-- Constant `CHUNK_OVERLAP = 80` (rag_service.py line 20): overlap between chunks. -/
def CHUNK_OVERLAP : Nat := 80

/-- The `while start < len(text)` loop of `_chunk_text`: collect
`text[start:end].strip()` for `end = min(start + CHUNK_SIZE, len(text))`,
advancing `start` by `CHUNK_SIZE - CHUNK_OVERLAP`.  The loop is driven by
a fuel argument so that it reduces structurally; since `start` grows by
`520 ≥ 1` each turn, `text.length` units of fuel are never exhausted
before the `start < len(text)` guard stops the loop. -/
def chunkGo (text : List Char) : Nat → Nat → List (List Char)
  | 0, _ => []
  | fuel + 1, start =>
    if start < text.length then
      let e := min (start + CHUNK_SIZE) text.length
      pyStrip ((text.drop start).take (e - start)) ::
        chunkGo text fuel (start + (CHUNK_SIZE - CHUNK_OVERLAP))
    else
      []

/-- The chunk list built by the loop of `_chunk_text`, started at `start = 0`. -/
def chunkLoop (text : List Char) : List (List Char) :=
  chunkGo text text.length 0

/-- Function `_chunk_text` (rag_service.py lines 48–56): the sliding-window
loop followed by the comprehension `[c for c in chunks if len(c) > 40]`. -/
def chunkText (text : List Char) : List (List Char) :=
  (chunkLoop text).filter (fun c => 40 < c.length)

/-- Function `hash_embed` inside `_embed` (rag_service.py lines 86–97), the
deterministic fallback: one value per dimension `i < 256`, obtained from
`hashlib.sha256(f"{i}:{text[:200]}".encode()).digest()` decoded by
`struct.unpack('f', h[:4])[0]`, then divided by
`max(abs(v) for v in vec) or 1.0`.  The SHA-256 digest together with the
IEEE float decode is the abstract parameter `hash`; the construction of
its input from the dimension index and the first 200 characters of the
text, and the normalization, are from the source. -/
def hashEmbed (hash : List Char → ℚ) (text : List Char) : List ℚ :=
  let vec := (List.range 256).map (fun i => hash ((toString i).toList ++ ':' :: text.take 200))
  let m := (vec.map (fun v => |v|)).foldl max 0
  let norm := if m = 0 then 1 else m
  vec.map (fun v => v / norm)

/-- Metadata stored with each chunk:
`{'doc_id': doc_id, 'filename': filename, 'chunk': i}` (rag_service.py line 145). -/
structure ChunkMeta where
  doc_id : String
  filename : String
  chunk : Nat
deriving DecidableEq

/-- One entry of a ChromaDB collection: id, document text, embedding, metadata. -/
structure ColEntry (α : Type u) where
  id : String
  document : List Char
  embedding : α
  metadata : ChunkMeta
deriving DecidableEq

/-- A per-resource ChromaDB collection, modelled as the list of its entries. -/
abbrev Collection (α : Type u) := List (ColEntry α)

/-- Chroma `collection.get(where={"doc_id": doc_id})['ids']`: the ids of the
entries whose metadata carries the given document id. -/
def colGetIdsWhere (col : Collection α) (docId : String) : List String :=
  (col.filter (fun e => e.metadata.doc_id == docId)).map ColEntry.id

/-- Chroma `collection.delete(ids=ids)`: remove every entry whose id occurs
in `ids`. -/
def colDelete (col : Collection α) (ids : List String) : Collection α :=
  col.filter (fun e => !(ids.contains e.id))

/-- The fresh entries built by `ingest_document` (rag_service.py lines
144–145 and 155): ids `f"{doc_id}_chunk_{i}"`, the chunk texts, their
embeddings, and the metadata dicts, aligned position by position. -/
def newChunkEntries (embed : List Char → α) (docId filename : String)
    (text : List Char) : Collection α :=
  (chunkText text).enum.map (fun ic =>
    { id := docId ++ "_chunk_" ++ toString ic.1
      document := ic.2
      embedding := embed ic.2
      metadata := { doc_id := docId, filename := filename, chunk := ic.1 } })

/-- Function `ingest_document` (rag_service.py lines 128–157).  The text
extraction result is the `text` argument; the embedder is the `embed`
parameter.  `none` models the two `raise ValueError` paths (empty
extraction, no chunks); otherwise the old entries of the same document id
are deleted and the fresh entries appended, returning the new collection
state and the chunk count. -/
def ingestDocument (embed : List Char → α) (col : Collection α)
    (docId filename : String) (text : List Char) : Option (Collection α × Nat) :=
  if pyStrip text = [] then none
  else
    let chunks := chunkText text
    if chunks = [] then none
    else
      let entries := newChunkEntries embed docId filename text
      let col1 := colDelete col (colGetIdsWhere col docId)
      some (col1 ++ entries, chunks.length)

/-- The part of a Chroma query result read by `retrieve_context`:
`results['documents'][0]` and `results['metadatas'][0]`. -/
structure QueryResult where
  documents : List (List Char)
  metadatas : List ChunkMeta

/-- The three fallible collaborators used by `retrieve_context`: the
embedder (`_embed([query])[0]`), the collection lookup
(`_get_collection(resource_id)`), and the nearest-neighbour query
(`collection.query(...)`). -/
structure RetrievalEnv (α : Type u) where
  embed : String → Except String α
  getCollection : String → Except String (Collection α)
  runQuery : Collection α → α → Nat → Except String QueryResult

/-- The body of the `try:` block of `retrieve_context` (rag_service.py
lines 160–193): embed the query, fetch the collection, return `""` on an
empty collection, query `min(k, collection.count())` neighbours, return
`""` when no documents come back, else join the chunk texts prefixed with
their source filenames. -/
def retrieveBody (env : RetrievalEnv α) (query resourceId : String) (k : Nat) :
    Except String String :=
  match env.embed query with
  | .error e => .error e
  | .ok qe =>
    match env.getCollection resourceId with
    | .error e => .error e
    | .ok col =>
      if col.length = 0 then .ok ""
      else
        match env.runQuery col qe (min k col.length) with
        | .error e => .error e
        | .ok results =>
          if results.documents.isEmpty then .ok ""
          else
            let parts := (results.documents.zip results.metadatas).map
              (fun p => "[" ++ p.2.filename ++ "]\n" ++ String.mk p.1)
            .ok (String.intercalate "\n\n---\n\n" parts)

/-- Function `retrieve_context`: the body above wrapped in
`try: ... except: return ""`. -/
def retrieveContext (env : RetrievalEnv α) (query resourceId : String) (k : Nat) :
    String :=
  match retrieveBody env query resourceId k with
  | .ok s => s
  | .error _ => ""

/-! Embedding of the message store of `backend/models.py`. -/

/-- A chat message: role (`'user'` / `'assistant'`) and content
(models.py `Message`). -/
structure Msg where
  role : String
  content : String
deriving DecidableEq

/-- Method `Message.save` (models.py lines 117–121): append the message to
the session's list. -/
def saveMessage (store : List Msg) (m : Msg) : List Msg :=
  store ++ [m]

/-- Static method `Message.get_by_session` (models.py lines 123–125): the
session's message list in insertion (chronological) order. -/
def getBySession (store : List Msg) : List Msg :=
  store

/-- Saving several messages in sequence with `Message.save`. -/
def saveAll (store : List Msg) (ms : List Msg) : List Msg :=
  ms.foldl saveMessage store

/-! Embedding of `backend/services/memory_service.py`. -/

/-- Modelled from the spec: the `AdaptiveMemory` record of §3, one per
`(user_id, resource_id)` pair, whose class definition is not under `src/`
(memory_service.py imports it from `models`); fields exactly as read and
written by memory_service.py. -/
structure AdaptiveMemory where
  last_topics : List String := []
  weak_areas : List String := []
  strong_areas : List String := []
  summary : String := ""
  session_count : Nat := 0
  total_messages : Nat := 0
  average_quiz_score : Option ℚ := none
  last_seen : Option Nat := none
deriving DecidableEq

/-- The JSON object produced by the compression prompt, as read with
`data.get(...)`: every key may be absent (`none`). -/
structure CompressionData where
  topics : Option (List String) := none
  weak_areas : Option (List String) := none
  strong_areas : Option (List String) := none
  summary : Option String := none
deriving DecidableEq

/-- The code-fence stripping applied to the LLM reply before `json.loads`
(memory_service.py lines 123–127): strip, drop a leading ```` ```json ````
(7 chars) or ```` ``` ```` (3 chars), drop a trailing ```` ``` ````, strip
again. -/
def stripFences (resultText : List Char) : List Char :=
  let text := pyStrip resultText
  let text := if "```json".toList.isPrefixOf text then text.drop 7 else text
  let text := if "```".toList.isPrefixOf text then text.drop 3 else text
  let text := if "```".toList.isSuffixOf text then text.take (text.length - 3) else text
  pyStrip text

/-- The merge applied to each bounded list (memory_service.py lines
129–137): `list(dict.fromkeys(new + old))[:cap]`. -/
def mergeList (cap : Nat) (new old : List String) : List String :=
  (dedupFirst (new ++ old)).take cap

/-- The selection `[m.content for m in messages if m.role == 'user'][:10]`
(memory_service.py line 101). -/
def selectUserMessages (messages : List Msg) : List String :=
  ((messages.filter (fun m => m.role == "user")).map Msg.content).take 10

/-- Function `update_memory_from_session` (memory_service.py lines
85–147).  `messages` is `Message.get_by_session(session_id)`; `mem0` is
`AdaptiveMemory.get_or_create(user_id, resource_id)`; the LLM call is the
`llm` parameter (its outcome), JSON parsing the `parse` parameter, and
`datetime.utcnow()` the `now` tick.  The result is the record passed to
`mem.save()`, or `none` on the early `return` that saves nothing.  The
inner `try: ... except:` around the LLM call and the parse is modelled by
the `Except`/`Option` matches: any failure leaves the record as it was
after the counter updates. -/
def updateMemoryFromSession (messages : List Msg) (mem0 : AdaptiveMemory)
    (llm : Except String String) (parse : List Char → Option CompressionData)
    (now : Nat) : Option AdaptiveMemory :=
  if messages = [] then none
  else
    let mem := { mem0 with
      session_count := mem0.session_count + 1
      total_messages := mem0.total_messages + messages.length
      last_seen := some now }
    let user_messages := selectUserMessages messages
    if user_messages = [] then some mem
    else
      match llm with
      | .error _ => some mem
      | .ok result_text =>
        match parse (stripFences result_text.toList) with
        | none => some mem
        | some data =>
          let new_topics := data.topics.getD []
          let new_weak := data.weak_areas.getD []
          let new_strong := data.strong_areas.getD []
          some { mem with
            last_topics := mergeList 5 new_topics mem.last_topics
            weak_areas := mergeList 3 new_weak mem.weak_areas
            strong_areas := mergeList 3 new_strong mem.strong_areas
            summary := data.summary.getD mem.summary }

/-- Function `update_quiz_score` (memory_service.py lines 150–161): first
score is stored as is; afterwards
`round(0.7 * mem.average_quiz_score + 0.3 * score, 1)`. -/
def updateQuizScore (mem : AdaptiveMemory) (score : ℚ) : AdaptiveMemory :=
  match mem.average_quiz_score with
  | none => { mem with average_quiz_score := some score }
  | some avg =>
    { mem with average_quiz_score := some (pyRound1 ((0.7 : ℚ) * avg + (0.3 : ℚ) * score)) }

/-- An eleven-message all-user session used as a counterexample input. -/
def elevenUserMessages : List Msg :=
  [⟨"user", "m0"⟩, ⟨"user", "m1"⟩, ⟨"user", "m2"⟩, ⟨"user", "m3"⟩,
   ⟨"user", "m4"⟩, ⟨"user", "m5"⟩, ⟨"user", "m6"⟩, ⟨"user", "m7"⟩,
   ⟨"user", "m8"⟩, ⟨"user", "m9"⟩, ⟨"user", "m10"⟩]

/-! Supporting lemmas. -/

theorem pyStrip_eq_rdropWhile_dropWhile (s : List Char) :
    pyStrip s = List.rdropWhile Char.isWhitespace (s.dropWhile Char.isWhitespace) := by
  simp [pyStrip, List.rdropWhile]

theorem head?_dropWhile_false {α : Type u} (p : α → Bool) (l : List α) (x : α)
    (h : (l.dropWhile p).head? = some x) : p x = false := by
  induction l with
  | nil => simp at h
  | cons a t ih =>
    by_cases hp : p a
    · rw [List.dropWhile_cons_of_pos hp] at h
      exact ih h
    · rw [List.dropWhile_cons_of_neg hp] at h
      simp only [List.head?_cons, Option.some.injEq] at h
      rw [← h]
      simpa using hp

theorem pyStrip_no_trim (l : List Char)
    (h1 : ∀ x, l.head? = some x → x.isWhitespace = false)
    (h2 : ∀ x, l.getLast? = some x → x.isWhitespace = false) :
    pyStrip l = l := by
  rw [pyStrip_eq_rdropWhile_dropWhile]
  have hd : l.dropWhile Char.isWhitespace = l := by
    cases l with
    | nil => rfl
    | cons a t => exact List.dropWhile_cons_of_neg (by simp [h1 a rfl])
  rw [hd, List.rdropWhile_eq_self_iff]
  intro hl
  have := h2 (l.getLast hl) (List.getLast?_eq_getLast_of_ne_nil hl)
  simp [this]

theorem pyStrip_idem (s : List Char) : pyStrip (pyStrip s) = pyStrip s := by
  apply pyStrip_no_trim
  · intro x hx
    rw [pyStrip_eq_rdropWhile_dropWhile] at hx
    obtain ⟨r, hr⟩ :=
      List.rdropWhile_prefix Char.isWhitespace (s.dropWhile Char.isWhitespace)
    cases hrdw : List.rdropWhile Char.isWhitespace (s.dropWhile Char.isWhitespace) with
    | nil => rw [hrdw] at hx; simp at hx
    | cons y ys =>
      rw [hrdw] at hx hr
      simp only [List.head?_cons, Option.some.injEq] at hx
      apply head?_dropWhile_false Char.isWhitespace s x
      rw [← hr, ← hx]
      simp
  · intro x hx
    rw [pyStrip_eq_rdropWhile_dropWhile] at hx
    have hne : List.rdropWhile Char.isWhitespace (s.dropWhile Char.isWhitespace) ≠ [] := by
      intro h; rw [h] at hx; simp at hx
    have hlast := List.rdropWhile_last_not Char.isWhitespace
      (s.dropWhile Char.isWhitespace) hne
    have hx2 := List.getLast?_eq_getLast_of_ne_nil hne
    rw [hx] at hx2
    simp only [Option.some.injEq] at hx2
    rw [hx2]
    simpa using hlast

theorem chunkGo_mem_strip (text : List Char) (fuel : Nat) :
    ∀ start c, c ∈ chunkGo text fuel start → ∃ s, c = pyStrip s := by
  induction fuel with
  | zero => intro start c hc; simp [chunkGo] at hc
  | succ n ih =>
    intro start c hc
    rw [chunkGo] at hc
    by_cases hs : start < text.length
    · rw [if_pos hs] at hc
      rcases List.mem_cons.mp hc with h | h
      · exact ⟨_, h⟩
      · exact ih _ c h
    · rw [if_neg hs] at hc
      simp at hc

/-- Claim C4 (corrected).  Every chunk emitted by `_chunk_text` has trimmed
length strictly greater than 40 characters (chunks are emitted already
stripped, so their length is their trimmed length); a window slice is kept
if and only if its trimmed length exceeds 40 — a slice of trimmed length
exactly 40 is discarded (see the counterexample). -/
theorem chunk_min_length_strict (text : List Char) :
    (∀ c ∈ chunkText text, 40 < c.length ∧ pyStrip c = c) ∧
    (∀ c ∈ chunkLoop text, 40 < c.length → c ∈ chunkText text) := by
  constructor
  · intro c hc
    rw [chunkText, List.mem_filter] at hc
    refine ⟨by simpa using hc.2, ?_⟩
    obtain ⟨s, rfl⟩ := chunkGo_mem_strip text text.length 0 c hc.1
    exact pyStrip_idem s
  · intro c hc hlen
    rw [chunkText, List.mem_filter]
    exact ⟨hc, by simpa using hlen⟩

set_option maxRecDepth 10000 in
/-- Witness for `chunk_min_length_strict` at a 100-character text. -/
theorem chunk_min_length_strict_witness :
    List.replicate 100 'a' ∈ chunkText (List.replicate 100 'a') ∧
      40 < (List.replicate 100 'a').length ∧
      pyStrip (List.replicate 100 'a') = List.replicate 100 'a' := by
  refine ⟨(chunk_min_length_strict (List.replicate 100 'a')).2
    (List.replicate 100 'a') (by decide) (by decide), ?_, ?_⟩
  · exact ((chunk_min_length_strict (List.replicate 100 'a')).1
      (List.replicate 100 'a') (by decide)).1
  · exact ((chunk_min_length_strict (List.replicate 100 'a')).1
      (List.replicate 100 'a') (by decide)).2

set_option maxRecDepth 10000 in
/-- Counterexample to claim C4 as stated: a 40-character text yields one
window slice whose trimmed length is exactly 40, and `_chunk_text`
discards it (`len(c) > 40` is strict), leaving no chunks — the claim says
such a slice is kept. -/
theorem chunk_exact40_discarded_cex :
    (pyStrip (List.replicate 40 'a')).length = 40 ∧
      chunkLoop (List.replicate 40 'a') = [List.replicate 40 'a'] ∧
      chunkText (List.replicate 40 'a') = [] := by
  decide

/-- Shared evaluation: the fallback per-dimension hash inputs depend only
on the first 200 characters of the text, so the whole fallback embedding
does. -/
theorem hashEmbed_take200 (hash : List Char → ℚ) (t₁ t₂ : List Char)
    (h : t₁.take 200 = t₂.take 200) : hashEmbed hash t₁ = hashEmbed hash t₂ := by
  simp only [hashEmbed, h]

/-- Claim C6 (corrected).  The fallback embedding is a pure function
producing 256 dimensions, and its value depends only on the first 200
characters of the text: any two texts agreeing on their first 200
characters receive identical vectors, for every hash function — so
distinct strings are NOT guaranteed distinct vectors, even without a hash
collision. -/
theorem fallback_embedding_truncated (hash : List Char → ℚ) (t₁ t₂ : List Char) :
    (hashEmbed hash t₁).length = 256 ∧
    (t₁.take 200 = t₂.take 200 → hashEmbed hash t₁ = hashEmbed hash t₂) := by
  constructor
  · simp [hashEmbed]
  · exact hashEmbed_take200 hash t₁ t₂

set_option maxRecDepth 10000 in
/-- Witness for `fallback_embedding_truncated`: two distinct 201-character
texts agreeing on the first 200 characters. -/
theorem fallback_embedding_truncated_witness :
    (hashEmbed (fun s => (s.length : ℚ)) (List.replicate 200 'a' ++ ['b'])).length = 256 ∧
    hashEmbed (fun s => (s.length : ℚ)) (List.replicate 200 'a' ++ ['b']) =
      hashEmbed (fun s => (s.length : ℚ)) (List.replicate 200 'a' ++ ['c']) :=
  ⟨(fallback_embedding_truncated (fun s => (s.length : ℚ))
      (List.replicate 200 'a' ++ ['b']) (List.replicate 200 'a' ++ ['c'])).1,
   (fallback_embedding_truncated (fun s => (s.length : ℚ))
      (List.replicate 200 'a' ++ ['b']) (List.replicate 200 'a' ++ ['c'])).2 (by decide)⟩

set_option maxRecDepth 10000 in
/-- Counterexample to claim C6 as stated: two different strings (sharing
their first 200 characters but differing at position 200) receive
bit-identical fallback embeddings although no hash collision is involved —
the per-dimension hash inputs are themselves identical. -/
theorem fallback_embedding_collision_cex :
    (List.replicate 200 'a' ++ ['b']) ≠ (List.replicate 200 'a' ++ ['c']) ∧
    (List.replicate 200 'a' ++ ['b']).take 200 = (List.replicate 200 'a' ++ ['c']).take 200 ∧
    hashEmbed (fun s => (s.length : ℚ)) (List.replicate 200 'a' ++ ['b']) =
      hashEmbed (fun s => (s.length : ℚ)) (List.replicate 200 'a' ++ ['c']) := by
  refine ⟨by decide, by decide, ?_⟩
  exact hashEmbed_take200 _ _ _ (by decide)

/-- Claim C7 (confirmed).  `retrieve_context` returns the empty string —
and, being total, never raises — whenever the query embedding fails, the
collection lookup fails, the collection is empty, or the nearest-neighbour
query fails. -/
theorem retrieve_context_best_effort {α : Type u} (env : RetrievalEnv α)
    (q r : String) (k : Nat) :
    (∀ e, env.embed q = .error e → retrieveContext env q r k = "") ∧
    (∀ e, env.getCollection r = .error e → retrieveContext env q r k = "") ∧
    (env.getCollection r = .ok [] → retrieveContext env q r k = "") ∧
    (∀ qe col e, env.embed q = .ok qe → env.getCollection r = .ok col →
      env.runQuery col qe (min k col.length) = .error e →
      retrieveContext env q r k = "") := by
  refine ⟨?_, ?_, ?_, ?_⟩
  · intro e he
    simp [retrieveContext, retrieveBody, he]
  · intro e he
    cases hq : env.embed q with
    | error e2 => simp [retrieveContext, retrieveBody, hq]
    | ok qe => simp [retrieveContext, retrieveBody, hq, he]
  · intro he
    cases hq : env.embed q with
    | error e2 => simp [retrieveContext, retrieveBody, hq]
    | ok qe => simp [retrieveContext, retrieveBody, hq, he]
  · intro qe col e hq hc hrun
    by_cases hcol : col.length = 0
    · simp [retrieveContext, retrieveBody, hq, hc, hcol]
    · simp [retrieveContext, retrieveBody, hq, hc, hcol, hrun]

/-- Witness for `retrieve_context_best_effort`: a concrete environment
whose collection is empty. -/
theorem retrieve_context_best_effort_witness :
    retrieveContext
      (⟨fun _ => Except.ok 0, fun _ => Except.ok [], fun _ _ _ => Except.error "down"⟩ :
        RetrievalEnv Nat) "query" "resource" 3 = "" :=
  (retrieve_context_best_effort
    (⟨fun _ => Except.ok 0, fun _ => Except.ok [], fun _ _ _ => Except.error "down"⟩ :
      RetrievalEnv Nat) "query" "resource" 3).2.2.1 rfl

theorem roundHalfEven_sub_le (q : ℚ) : |(roundHalfEven q : ℚ) - q| ≤ 1/2 := by
  have h0 : (⌊q⌋ : ℚ) ≤ q := Int.floor_le q
  have h1 : q < ⌊q⌋ + 1 := Int.lt_floor_add_one q
  rw [roundHalfEven]
  split_ifs with ha hb hc <;> rw [abs_le] <;> constructor <;> push_cast <;> linarith

theorem pyRound1_sub_le (q : ℚ) : |pyRound1 q - q| ≤ 1/20 := by
  have h := roundHalfEven_sub_le (10 * q)
  rw [pyRound1]
  have heq : (roundHalfEven (10 * q) : ℚ) / 10 - q
      = ((roundHalfEven (10 * q) : ℚ) - 10 * q) / 10 := by ring
  rw [heq, abs_div]
  rw [show |(10 : ℚ)| = 10 by norm_num]
  linarith

/-- Claim C9 (confirmed).  `update_quiz_score` stores the first score as
is, and afterwards updates only through the exponential moving average
`round(0.7 * prior + 0.3 * new, 1)` — the rounded value is within `1/20`
of the exact EMA, never a plain overwrite — and the 80/50 instance gives
exactly 71.0. -/
theorem quiz_score_ema (mem : AdaptiveMemory) (s a : ℚ) :
    (mem.average_quiz_score = none →
      (updateQuizScore mem s).average_quiz_score = some s) ∧
    (mem.average_quiz_score = some a →
      (updateQuizScore mem s).average_quiz_score
          = some (pyRound1 ((0.7 : ℚ) * a + (0.3 : ℚ) * s)) ∧
        |pyRound1 ((0.7 : ℚ) * a + (0.3 : ℚ) * s) - ((0.7 : ℚ) * a + (0.3 : ℚ) * s)|
          ≤ 1/20) ∧
    (updateQuizScore { average_quiz_score := some 80 } 50).average_quiz_score
      = some 71 := by
  refine ⟨?_, ?_, ?_⟩
  · intro h
    simp [updateQuizScore, h]
  · intro h
    exact ⟨by simp [updateQuizScore, h], pyRound1_sub_le _⟩
  · show (updateQuizScore { average_quiz_score := some 80 } 50).average_quiz_score = some 71
    rw [show (updateQuizScore { average_quiz_score := some 80 } 50).average_quiz_score
        = some (pyRound1 ((0.7 : ℚ) * 80 + (0.3 : ℚ) * 50)) from rfl]
    rw [pyRound1, roundHalfEven]
    norm_num

/-- Witness for `quiz_score_ema`: the EMA branch at prior 80 and score 50. -/
theorem quiz_score_ema_witness :
    (updateQuizScore { average_quiz_score := some 80 } 50).average_quiz_score
        = some (pyRound1 ((0.7 : ℚ) * 80 + (0.3 : ℚ) * 50)) ∧
      |pyRound1 ((0.7 : ℚ) * 80 + (0.3 : ℚ) * 50) - ((0.7 : ℚ) * 80 + (0.3 : ℚ) * 50)|
        ≤ 1/20 :=
  (quiz_score_ema { average_quiz_score := some 80 } 50 80).2.1 rfl

theorem mem_dedupFirstAux {β : Type u} [DecidableEq β] (x : β) (l : List β) :
    ∀ seen, x ∈ dedupFirstAux seen l ↔ x ∈ l ∧ x ∉ seen := by
  induction l with
  | nil => intro seen; simp [dedupFirstAux]
  | cons a t ih =>
    intro seen
    by_cases ha : a ∈ seen
    · rw [dedupFirstAux, if_pos ha, ih]
      constructor
      · rintro ⟨hx, hs⟩
        exact ⟨List.mem_cons_of_mem a hx, hs⟩
      · rintro ⟨hx, hs⟩
        rcases List.mem_cons.mp hx with rfl | hx
        · exact absurd ha hs
        · exact ⟨hx, hs⟩
    · rw [dedupFirstAux, if_neg ha]
      rw [List.mem_cons, ih (a :: seen)]
      constructor
      · rintro (rfl | ⟨hx, hs⟩)
        · exact ⟨List.mem_cons_self x t, ha⟩
        · exact ⟨List.mem_cons_of_mem a hx, fun h => hs (List.mem_cons_of_mem a h)⟩
      · rintro ⟨hx, hs⟩
        by_cases hxa : x = a
        · exact Or.inl hxa
        · rcases List.mem_cons.mp hx with rfl | hx
          · exact Or.inl rfl
          · exact Or.inr ⟨hx, by simp [hxa, hs]⟩

theorem nodup_dedupFirstAux {β : Type u} [DecidableEq β] (l : List β) :
    ∀ seen, (dedupFirstAux seen l).Nodup := by
  induction l with
  | nil => intro seen; simp [dedupFirstAux]
  | cons a t ih =>
    intro seen
    by_cases ha : a ∈ seen
    · rw [dedupFirstAux, if_pos ha]
      exact ih seen
    · rw [dedupFirstAux, if_neg ha]
      refine List.nodup_cons.mpr ⟨?_, ih (a :: seen)⟩
      intro hmem
      exact ((mem_dedupFirstAux a t (a :: seen)).mp hmem).2 (List.mem_cons_self a seen)

theorem dedupFirstAux_append {β : Type u} [DecidableEq β] (xs ys : List β) :
    ∀ seen, ∃ s2, dedupFirstAux seen (xs ++ ys)
        = dedupFirstAux seen xs ++ dedupFirstAux s2 ys ∧
      ∀ y, y ∈ s2 ↔ (y ∈ seen ∨ y ∈ xs) := by
  induction xs with
  | nil =>
    intro seen
    exact ⟨seen, by simp [dedupFirstAux], fun y => by simp⟩
  | cons x xs ih =>
    intro seen
    by_cases hx : x ∈ seen
    · obtain ⟨s2, h1, h2⟩ := ih seen
      refine ⟨s2, ?_, ?_⟩
      · rw [List.cons_append, dedupFirstAux, if_pos hx, h1, dedupFirstAux, if_pos hx]
      · intro y
        rw [h2 y, List.mem_cons]
        constructor
        · rintro (hs | hxs)
          · exact Or.inl hs
          · exact Or.inr (Or.inr hxs)
        · rintro (hs | rfl | hxs)
          · exact Or.inl hs
          · exact Or.inl hx
          · exact Or.inr hxs
    · obtain ⟨s2, h1, h2⟩ := ih (x :: seen)
      refine ⟨s2, ?_, ?_⟩
      · rw [List.cons_append, dedupFirstAux, if_neg hx, h1, dedupFirstAux, if_neg hx,
          List.cons_append]
      · intro y
        rw [h2 y, List.mem_cons, List.mem_cons]
        tauto

/-- The shape of every merged bounded list: at most `cap` elements, no
duplicates, and the deduplicated new items (in order) come before the
surviving old items. -/
theorem mergeList_spec (cap : Nat) (new old : List String) :
    (mergeList cap new old).length ≤ cap ∧ (mergeList cap new old).Nodup ∧
    ∃ R, mergeList cap new old = (dedupFirst new ++ R).take cap ∧
      ∀ x ∈ R, x ∈ old ∧ x ∉ new := by
  obtain ⟨s2, h1, h2⟩ := dedupFirstAux_append new old []
  refine ⟨?_, ?_, dedupFirstAux s2 old, ?_, ?_⟩
  · rw [mergeList, List.length_take]
    exact min_le_left cap _
  · exact (nodup_dedupFirstAux _ []).sublist (List.take_sublist ..)
  · rw [mergeList, dedupFirst, h1, dedupFirst]
  · intro x hx
    obtain ⟨hxo, hxs⟩ := (mem_dedupFirstAux x old s2).mp hx
    refine ⟨hxo, fun hxn => hxs ?_⟩
    rw [h2 x]
    exact Or.inr hxn

/-- Claim C2 (confirmed).  After a successful memory-compression merge,
`last_topics` has at most 5 elements and `weak_areas`/`strong_areas` at
most 3, none contains duplicates, and each is ordered most-recent-first:
the (deduplicated) newly extracted items precede the surviving previously
stored items. -/
theorem memory_merge_bounds (messages : List Msg) (mem0 : AdaptiveMemory)
    (rt : String) (parse : List Char → Option CompressionData) (now : Nat)
    (data : CompressionData) (mem1 : AdaptiveMemory)
    (hm : messages ≠ []) (hu : selectUserMessages messages ≠ [])
    (hp : parse (stripFences rt.toList) = some data)
    (hres : updateMemoryFromSession messages mem0 (.ok rt) parse now = some mem1) :
    (mem1.last_topics.length ≤ 5 ∧ mem1.last_topics.Nodup ∧
      ∃ R, mem1.last_topics = (dedupFirst (data.topics.getD []) ++ R).take 5 ∧
        ∀ x ∈ R, x ∈ mem0.last_topics ∧ x ∉ data.topics.getD []) ∧
    (mem1.weak_areas.length ≤ 3 ∧ mem1.weak_areas.Nodup ∧
      ∃ R, mem1.weak_areas = (dedupFirst (data.weak_areas.getD []) ++ R).take 3 ∧
        ∀ x ∈ R, x ∈ mem0.weak_areas ∧ x ∉ data.weak_areas.getD []) ∧
    (mem1.strong_areas.length ≤ 3 ∧ mem1.strong_areas.Nodup ∧
      ∃ R, mem1.strong_areas = (dedupFirst (data.strong_areas.getD []) ++ R).take 3 ∧
        ∀ x ∈ R, x ∈ mem0.strong_areas ∧ x ∉ data.strong_areas.getD []) := by
  rw [updateMemoryFromSession, if_neg (by simpa using hm),
    if_neg (by simpa using hu)] at hres
  simp only [hp, Option.some.injEq] at hres
  subst hres
  refine ⟨?_, ?_, ?_⟩
  · simpa using mergeList_spec 5 (data.topics.getD []) mem0.last_topics
  · simpa using mergeList_spec 3 (data.weak_areas.getD []) mem0.weak_areas
  · simpa using mergeList_spec 3 (data.strong_areas.getD []) mem0.strong_areas

/-- Witness for `memory_merge_bounds`: one user message, a prior memory
with two topics, a parsed output contributing two topics (one repeated). -/
theorem memory_merge_bounds_witness :
    (∃ mem1, updateMemoryFromSession [⟨"user", "q"⟩]
        { last_topics := ["old1", "old2"], weak_areas := ["w"], summary := "s" }
        (.ok "reply")
        (fun _ => some { topics := some ["t1", "old2"], weak_areas := some ["w2"] }) 7
        = some mem1 ∧
      mem1.last_topics.length ≤ 5 ∧ mem1.last_topics.Nodup) := by
  refine ⟨_, rfl, ?_, ?_⟩
  · exact (memory_merge_bounds [⟨"user", "q"⟩]
      { last_topics := ["old1", "old2"], weak_areas := ["w"], summary := "s" } "reply"
      (fun _ => some { topics := some ["t1", "old2"], weak_areas := some ["w2"] }) 7
      { topics := some ["t1", "old2"], weak_areas := some ["w2"] } _
      (by decide) (by decide) rfl rfl).1.1
  · exact (memory_merge_bounds [⟨"user", "q"⟩]
      { last_topics := ["old1", "old2"], weak_areas := ["w"], summary := "s" } "reply"
      (fun _ => some { topics := some ["t1", "old2"], weak_areas := some ["w2"] }) 7
      { topics := some ["t1", "old2"], weak_areas := some ["w2"] } _
      (by decide) (by decide) rfl rfl).1.2.1

/-- Claim C3 (confirmed).  When the LLM call errors or its reply does not
parse, `update_memory_from_session` still returns (saves) a record whose
topic/area lists and summary are unchanged, with `session_count` bumped by
one, `total_messages` bumped by the session's message count, and
`last_seen` refreshed; no exception reaches the caller (the function is
total and the failure is absorbed by the inner handler). -/
theorem memory_compression_failure_tolerant (messages : List Msg)
    (mem0 : AdaptiveMemory) (llm : Except String String)
    (parse : List Char → Option CompressionData) (now : Nat)
    (hm : messages ≠ []) (hu : selectUserMessages messages ≠ [])
    (hfail : (∃ e, llm = .error e) ∨
      (∃ rt, llm = .ok rt ∧ parse (stripFences rt.toList) = none)) :
    ∃ mem1, updateMemoryFromSession messages mem0 llm parse now = some mem1 ∧
      mem1.last_topics = mem0.last_topics ∧ mem1.weak_areas = mem0.weak_areas ∧
      mem1.strong_areas = mem0.strong_areas ∧ mem1.summary = mem0.summary ∧
      mem1.session_count = mem0.session_count + 1 ∧
      mem1.total_messages = mem0.total_messages + messages.length ∧
      mem1.last_seen = some now := by
  rcases hfail with ⟨e, rfl⟩ | ⟨rt, rfl, hp⟩
  · refine ⟨{ mem0 with
          session_count := mem0.session_count + 1
          total_messages := mem0.total_messages + messages.length
          last_seen := some now },
      ?_, rfl, rfl, rfl, rfl, rfl, rfl, rfl⟩
    rw [updateMemoryFromSession, if_neg (by simpa using hm), if_neg (by simpa using hu)]
  · refine ⟨{ mem0 with
          session_count := mem0.session_count + 1
          total_messages := mem0.total_messages + messages.length
          last_seen := some now },
      ?_, rfl, rfl, rfl, rfl, rfl, rfl, rfl⟩
    rw [updateMemoryFromSession, if_neg (by simpa using hm),
      if_neg (by simpa using hu)]
    simp only [hp]

/-- Witness for `memory_compression_failure_tolerant`: an unparseable
reply on a one-user-message session. -/
theorem memory_compression_failure_tolerant_witness :
    ∃ mem1, updateMemoryFromSession [⟨"user", "hola"⟩]
        { last_topics := ["x"], summary := "s" } (.ok "not json") (fun _ => none) 3
        = some mem1 ∧
      mem1.last_topics = ["x"] ∧ mem1.weak_areas = [] ∧
      mem1.strong_areas = [] ∧ mem1.summary = "s" ∧
      mem1.session_count = 0 + 1 ∧
      mem1.total_messages = 0 + [(⟨"user", "hola"⟩ : Msg)].length ∧
      mem1.last_seen = some 3 :=
  memory_compression_failure_tolerant [⟨"user", "hola"⟩]
    { last_topics := ["x"], summary := "s" } (.ok "not json") (fun _ => none) 3
    (by decide) (by decide) (Or.inr ⟨"not json", rfl, rfl⟩)

/-- Claim C8 (corrected).  The compression input is the FIRST (oldest) up
to 10 user-authored messages of the session in stored chronological
order — a prefix of the user-message list, not the most recent ones (see
the counterexample) — and on a session with messages but none
user-authored the function still bumps the counters, refreshes
`last_seen`, leaves the lists and summary unchanged, and saves. -/
theorem compression_prefix_and_noop_save (messages : List Msg)
    (mem0 : AdaptiveMemory) (llm : Except String String)
    (parse : List Char → Option CompressionData) (now : Nat) :
    (∃ rest, (messages.filter (fun m => m.role == "user")).map Msg.content
        = selectUserMessages messages ++ rest) ∧
    (selectUserMessages messages).length
        = min 10 ((messages.filter (fun m => m.role == "user")).map Msg.content).length ∧
    (messages ≠ [] → messages.filter (fun m => m.role == "user") = [] →
      ∃ mem1, updateMemoryFromSession messages mem0 llm parse now = some mem1 ∧
        mem1.last_topics = mem0.last_topics ∧ mem1.weak_areas = mem0.weak_areas ∧
        mem1.strong_areas = mem0.strong_areas ∧ mem1.summary = mem0.summary ∧
        mem1.session_count = mem0.session_count + 1 ∧
        mem1.total_messages = mem0.total_messages + messages.length ∧
        mem1.last_seen = some now) := by
  refine ⟨⟨((messages.filter (fun m => m.role == "user")).map Msg.content).drop 10, ?_⟩,
    ?_, ?_⟩
  · rw [selectUserMessages, List.take_append_drop]
  · rw [selectUserMessages, List.length_take]
  · intro hm hnone
    refine ⟨{ mem0 with
          session_count := mem0.session_count + 1
          total_messages := mem0.total_messages + messages.length
          last_seen := some now },
      ?_, rfl, rfl, rfl, rfl, rfl, rfl, rfl⟩
    rw [updateMemoryFromSession, if_neg (by simpa using hm),
      if_pos (by simp [selectUserMessages, hnone])]

/-- Witness for `compression_prefix_and_noop_save`: a single
assistant-only message session. -/
theorem compression_prefix_and_noop_save_witness :
    ∃ mem1, updateMemoryFromSession [⟨"assistant", "hi"⟩]
        { summary := "s" } (.error "down") (fun _ => none) 4 = some mem1 ∧
      mem1.last_topics = [] ∧ mem1.weak_areas = [] ∧
      mem1.strong_areas = [] ∧ mem1.summary = "s" ∧
      mem1.session_count = 0 + 1 ∧
      mem1.total_messages = 0 + [(⟨"assistant", "hi"⟩ : Msg)].length ∧
      mem1.last_seen = some 4 :=
  (compression_prefix_and_noop_save [⟨"assistant", "hi"⟩] { summary := "s" }
    (.error "down") (fun _ => none) 4).2.2 (by decide) (by decide)

/-- Counterexample to claim C8 as stated: with eleven user messages the
selection is the ten OLDEST (`m0`..`m9`); the most recent user message
`m10` is not among the compressed ones, though the claim says the 10 most
recent are used. -/
theorem compression_oldest_messages_cex :
    selectUserMessages elevenUserMessages
        = ["m0", "m1", "m2", "m3", "m4", "m5", "m6", "m7", "m8", "m9"] ∧
      "m10" ∉ selectUserMessages elevenUserMessages ∧
      (elevenUserMessages.filter (fun m => m.role == "user")).length = 11 ∧
      ((elevenUserMessages.filter (fun m => m.role == "user")).map Msg.content).getLast?
        = some "m10" := by
  decide

theorem update_counters (messages : List Msg) (mem0 : AdaptiveMemory)
    (llm : Except String String) (parse : List Char → Option CompressionData)
    (now : Nat) (mem1 : AdaptiveMemory)
    (h : updateMemoryFromSession messages mem0 llm parse now = some mem1) :
    mem1.total_messages = mem0.total_messages + messages.length ∧
    mem1.session_count = mem0.session_count + 1 ∧ mem1.last_seen = some now := by
  rw [updateMemoryFromSession] at h
  by_cases hm : messages = []
  · rw [if_pos hm] at h
    exact absurd h (by simp)
  · rw [if_neg hm] at h
    by_cases hu : selectUserMessages messages = []
    · rw [if_pos hu, Option.some.injEq] at h
      subst h
      exact ⟨rfl, rfl, rfl⟩
    · rw [if_neg hu] at h
      cases llm with
      | error e =>
        rw [Option.some.injEq] at h
        subst h
        exact ⟨rfl, rfl, rfl⟩
      | ok rt =>
        cases hp : parse (stripFences rt.toList) with
        | none =>
          simp only [hp, Option.some.injEq] at h
          subst h
          exact ⟨rfl, rfl, rfl⟩
        | some data =>
          simp only [hp, Option.some.injEq] at h
          subst h
          exact ⟨rfl, rfl, rfl⟩

theorem saveAll_eq_append (ms : List Msg) :
    ∀ store, saveAll store ms = store ++ ms := by
  induction ms with
  | nil => intro store; simp [saveAll]
  | cons m ms ih =>
    intro store
    rw [saveAll, List.foldl_cons]
    have := ih (saveMessage store m)
    rw [saveAll] at this
    rw [this, saveMessage, List.append_assoc, List.singleton_append]

/-- Claim C10 (confirmed).  Each run of `update_memory_from_session` adds
the count of ALL messages currently stored in the session to
`total_messages`; hence when compression fires again after further
messages were saved, the earlier messages are counted a second time and
`total_messages` strictly exceeds the true number of messages exchanged. -/
theorem total_messages_overcount (store1 extra : List Msg)
    (mem0 mem1 mem2 : AdaptiveMemory) (llm1 llm2 : Except String String)
    (parse1 parse2 : List Char → Option CompressionData) (now1 now2 : Nat)
    (hne : getBySession store1 ≠ [])
    (h1 : updateMemoryFromSession (getBySession store1) mem0 llm1 parse1 now1
        = some mem1)
    (h2 : updateMemoryFromSession (getBySession (saveAll store1 extra)) mem1 llm2
        parse2 now2 = some mem2) :
    mem1.total_messages = mem0.total_messages + store1.length ∧
    mem2.total_messages
        = mem0.total_messages + store1.length + (store1.length + extra.length) ∧
    mem0.total_messages + (store1.length + extra.length) < mem2.total_messages := by
  have hc1 := (update_counters _ _ _ _ _ _ h1).1
  have hc2 := (update_counters _ _ _ _ _ _ h2).1
  rw [getBySession] at hc1
  rw [getBySession, saveAll_eq_append, List.length_append] at hc2
  have hpos : 0 < store1.length := by
    rw [getBySession] at hne
    exact List.length_pos.mpr hne
  refine ⟨hc1, ?_, ?_⟩ <;> omega

/-- Witness for `total_messages_overcount`: one user message, then one
assistant message before the second compression; the final counter is 3
though only 2 messages exist. -/
theorem total_messages_overcount_witness :
    ∃ mem1 mem2,
      updateMemoryFromSession (getBySession [⟨"user", "a"⟩]) {} (.error "down")
          (fun _ => none) 0 = some mem1 ∧
      updateMemoryFromSession
          (getBySession (saveAll [⟨"user", "a"⟩] [⟨"assistant", "b"⟩])) mem1
          (.error "down") (fun _ => none) 1 = some mem2 ∧
      mem2.total_messages = 0 + 1 + (1 + 1) ∧
      0 + (1 + 1) < mem2.total_messages := by
  refine ⟨_, _, rfl, rfl, ?_, ?_⟩
  · exact (total_messages_overcount [⟨"user", "a"⟩] [⟨"assistant", "b"⟩] {} _ _
      (.error "down") (.error "down") (fun _ => none) (fun _ => none) 0 1
      (by decide) rfl rfl).2.1
  · exact (total_messages_overcount [⟨"user", "a"⟩] [⟨"assistant", "b"⟩] {} _ _
      (.error "down") (.error "down") (fun _ => none) (fun _ => none) 0 1
      (by decide) rfl rfl).2.2

theorem filter_colDelete_getIdsWhere {β : Type u} (col : Collection β) (d : String) :
    (colDelete col (colGetIdsWhere col d)).filter (fun e => e.metadata.doc_id == d)
      = [] := by
  rw [List.filter_eq_nil_iff]
  intro e he hd
  rw [colDelete, List.mem_filter] at he
  obtain ⟨hec, hni⟩ := he
  have hmem : e.id ∈ colGetIdsWhere col d :=
    List.mem_map.mpr ⟨e, List.mem_filter.mpr ⟨hec, hd⟩, rfl⟩
  simp [hmem] at hni

theorem filter_newChunkEntries {β : Type u} (embed : List Char → β) (d f : String)
    (t : List Char) :
    (newChunkEntries embed d f t).filter (fun e => e.metadata.doc_id == d)
      = newChunkEntries embed d f t := by
  rw [List.filter_eq_self]
  intro e he
  rw [newChunkEntries, List.mem_map] at he
  obtain ⟨ic, _, rfl⟩ := he
  simp

/-- Claim C1 (confirmed).  Ingesting the same document id twice leaves the
collection holding, under that document id, exactly the fresh entries of
the second ingestion: the delete-before-add removes every entry tagged
with the document id, so nothing of the first ingestion survives and no
duplicate arises. -/
theorem ingest_reingest_exact {β : Type u} (embed : List Char → β)
    (col col1 col2 : Collection β) (d f1 f2 : String) (t1 t2 : List Char)
    (n1 n2 : Nat)
    (h1 : ingestDocument embed col d f1 t1 = some (col1, n1))
    (h2 : ingestDocument embed col1 d f2 t2 = some (col2, n2)) :
    col2.filter (fun e => e.metadata.doc_id == d) = newChunkEntries embed d f2 t2 ∧
    n2 = (chunkText t2).length := by
  rw [ingestDocument] at h2
  by_cases hs : pyStrip t2 = []
  · rw [if_pos hs] at h2
    exact absurd h2 (by simp)
  · simp only [if_neg hs] at h2
    by_cases hc : chunkText t2 = []
    · rw [if_pos hc] at h2
      exact absurd h2 (by simp)
    · rw [if_neg hc, Option.some.injEq, Prod.mk.injEq] at h2
      obtain ⟨hcol, hn⟩ := h2
      subst hcol
      refine ⟨?_, hn.symm⟩
      rw [List.filter_append, filter_colDelete_getIdsWhere, filter_newChunkEntries,
        List.nil_append]

set_option maxRecDepth 100000 in
/-- Witness for `ingest_reingest_exact`: a 100-character document ingested
twice under document id `d` into an initially empty collection. -/
theorem ingest_reingest_exact_witness :
    ∃ (col1 col2 : Collection Nat) (n1 n2 : Nat),
      ingestDocument (fun c => c.length) [] "d" "f1" (List.replicate 100 'a')
          = some (col1, n1) ∧
      ingestDocument (fun c => c.length) col1 "d" "f2" (List.replicate 100 'a')
          = some (col2, n2) ∧
      col2.filter (fun e => e.metadata.doc_id == "d")
          = newChunkEntries (fun c => c.length) "d" "f2" (List.replicate 100 'a') ∧
      n2 = (chunkText (List.replicate 100 'a')).length := by
  refine ⟨_, _, _, _, rfl, rfl, ?_, ?_⟩
  · exact (ingest_reingest_exact (fun c => c.length) [] _ _ "d" "f1" "f2"
      (List.replicate 100 'a') (List.replicate 100 'a') _ _ rfl rfl).1
  · exact (ingest_reingest_exact (fun c => c.length) [] _ _ "d" "f1" "f2"
      (List.replicate 100 'a') (List.replicate 100 'a') _ _ rfl rfl).2

theorem dropWhile_replicate_of_false {p : Char → Bool} {a : Char}
    (h : p a = false) (n : Nat) :
    (List.replicate n a).dropWhile p = List.replicate n a := by
  cases n with
  | zero => rfl
  | succ k =>
    rw [List.replicate_succ]
    exact List.dropWhile_cons_of_neg (by simp [h])

theorem pyStrip_replicate (n : Nat) (a : Char) (h : a.isWhitespace = false) :
    pyStrip (List.replicate n a) = List.replicate n a := by
  rw [pyStrip, dropWhile_replicate_of_false h, List.reverse_replicate,
    dropWhile_replicate_of_false h, List.reverse_replicate]

theorem chunkGo_succ (text : List Char) (fuel start : Nat) :
    chunkGo text (fuel + 1) start
      = if start < text.length then
          pyStrip ((text.drop start).take (min (start + CHUNK_SIZE) text.length - start))
            :: chunkGo text fuel (start + (CHUNK_SIZE - CHUNK_OVERLAP))
        else [] := rfl

theorem chunkGo_stop (text : List Char) (fuel start : Nat)
    (h : ¬ start < text.length) : chunkGo text fuel start = [] := by
  cases fuel with
  | zero => rfl
  | succ k => rw [chunkGo_succ, if_neg h]

theorem chunkGo_replicate_step (n fuel fuel2 start : Nat) (hf : fuel = fuel2 + 1)
    (h : start < n) :
    chunkGo (List.replicate n 'a') fuel start
      = List.replicate (min (start + 600) n - start) 'a'
        :: chunkGo (List.replicate n 'a') fuel2 (start + 520) := by
  subst hf
  rw [chunkGo_succ, if_pos (by simpa using h)]
  simp only [List.length_replicate, List.drop_replicate, List.take_replicate,
    CHUNK_SIZE, CHUNK_OVERLAP]
  rw [pyStrip_replicate _ _ (by decide)]
  have h1 : min (min (start + 600) n - start) (n - start) = min (start + 600) n - start := by
    omega
  rw [h1]

/-- Shared evaluation: `_chunk_text` on a 3000-character non-whitespace
document produces the six window chunks at starts 0, 520, 1040, 1560,
2080, 2600 — five of 600 characters and a final partial one of 400. -/
theorem chunkText_replicate3000 :
    chunkText (List.replicate 3000 'a')
      = [List.replicate 600 'a', List.replicate 600 'a', List.replicate 600 'a',
         List.replicate 600 'a', List.replicate 600 'a', List.replicate 400 'a'] := by
  have hloop : chunkLoop (List.replicate 3000 'a')
      = [List.replicate 600 'a', List.replicate 600 'a', List.replicate 600 'a',
         List.replicate 600 'a', List.replicate 600 'a', List.replicate 400 'a'] := by
    rw [chunkLoop, List.length_replicate]
    rw [chunkGo_replicate_step 3000 3000 2999 0 rfl (by norm_num)]
    norm_num
    rw [chunkGo_replicate_step 3000 2999 2998 520 rfl (by norm_num)]
    norm_num
    rw [chunkGo_replicate_step 3000 2998 2997 1040 rfl (by norm_num)]
    norm_num
    rw [chunkGo_replicate_step 3000 2997 2996 1560 rfl (by norm_num)]
    norm_num
    rw [chunkGo_replicate_step 3000 2996 2995 2080 rfl (by norm_num)]
    norm_num
    rw [chunkGo_replicate_step 3000 2995 2994 2600 rfl (by norm_num)]
    norm_num
    rw [chunkGo_stop _ 2994 3120 (by rw [List.length_replicate]; norm_num)]
  rw [chunkText, hloop]
  norm_num [List.filter_cons, List.length_replicate]

/-- Claim C5 (corrected).  Chunking a 3000-character plain-text document
(3000 identical non-whitespace characters) with the 600-character window
and 80-character overlap produces exactly SIX chunks — window starts 0,
520, 1040, 1560, 2080 and 2600 — the last partial chunk being 400
characters long (≥ 40), not the five chunks the claim states. -/
theorem chunk_3000_six_chunks :
    (chunkText (List.replicate 3000 'a')).length = 6 ∧
    (chunkText (List.replicate 3000 'a')).getLast? = some (List.replicate 400 'a') ∧
    40 ≤ (List.replicate 400 'a').length := by
  rw [chunkText_replicate3000]
  refine ⟨rfl, rfl, by norm_num⟩

/-- Counterexample to claim C5 as stated: the 3000-character document
yields 6 chunks, not 5. -/
theorem chunk_3000_not_five_cex :
    (chunkText (List.replicate 3000 'a')).length = 6 ∧
    (chunkText (List.replicate 3000 'a')).length ≠ 5 := by
  rw [chunkText_replicate3000]
  exact ⟨rfl, by norm_num⟩

end TutorLTI
